import Mathlib

/-!
Shallow embedding of the bitcoin-impl repository (src/app): helper
byte-string functions (helper.py), Script command serialization and
parsing (script.py), the transaction data model (tx.py), and the
elliptic-curve / signature layer (fieldelement.py, signature.py).

Conventions of the embedding:
* a Python `bytes` value is a `List Nat` whose entries are the byte values;
* a Python stream (`io.BytesIO`) is the list of bytes not yet consumed;
  `s.read(n)` is `(s.take n, s.drop n)` — exactly like Python, a read past
  the end silently returns the available bytes, and only an explicit
  indexing `[0]` of an empty read raises (modelled as `PyError.indexError`);
* fallible Python code (raise) is modelled with `Except PyError`;
* Python's unbounded non-negative ints are `Nat`, signed ones `Int`.
`int.to_bytes` raises `OverflowError` when the integer does not fit in the
requested length; every use of `int_to_little_endian` below is guarded by
the well-formedness hypotheses of the theorems that mention it, which keep
the value in range, so that function is embedded as the pure byte
computation.
-/

namespace BitcoinImpl

set_option maxRecDepth 100000

/-- Decidable equality for Except, so that concrete runs of the embedded
fallible functions can be checked by `decide`. -/
instance {ε α : Type} [DecidableEq ε] [DecidableEq α] :
    DecidableEq (Except ε α) := fun a b =>
  match a, b with
  | .ok x, .ok y =>
    match decEq x y with
    | isTrue h => isTrue (h ▸ rfl)
    | isFalse h => isFalse (fun he => h (Except.ok.inj he))
  | .error e, .error f =>
    match decEq e f with
    | isTrue h => isTrue (h ▸ rfl)
    | isFalse h => isFalse (fun he => h (Except.error.inj he))
  | .ok _, .error _ => isFalse (fun he => Except.noConfusion he)
  | .error _, .ok _ => isFalse (fun he => Except.noConfusion he)

/-- Exceptions raised by the Python source: IndexError (indexing an empty
bytes object), TypeError (e.g. three-argument pow with a float exponent),
ValueError (range checks, `too long an cmd`), OverflowError (int.to_bytes
with a too-large value), and UnboundLocalError (reading a local variable
that was never assigned on the executed path). -/
inductive PyError where
  | indexError
  | typeError
  | valueError
  | overflowError
  | unboundLocalError
deriving DecidableEq, Repr

/-- helper.little_endian_to_int: `int.from_bytes(b, "little")`. -/
def little_endian_to_int : List Nat → Nat
  | [] => 0
  | b :: rest => b + 256 * little_endian_to_int rest

/-- helper.int_to_little_endian: `n.to_bytes(length, "little")` (see the
header comment about the OverflowError case). -/
def int_to_little_endian : Nat → Nat → List Nat
  | _, 0 => []
  | n, len + 1 => n % 256 :: int_to_little_endian (n / 256) len

/-- Big-endian serialization `n.to_bytes(length, "big")`, used by
signature.py; Python's big-endian bytes are the little-endian ones
reversed. -/
def int_to_big_endian (n len : Nat) : List Nat :=
  (int_to_little_endian n len).reverse

/-- Big-endian deserialization `int.from_bytes(b, "big")`. -/
def big_endian_to_int (bs : List Nat) : Nat :=
  bs.foldl (fun acc b => acc * 256 + b) 0

/-- helper.encode_varint . -/
def encode_varint (i : Nat) : Except PyError (List Nat) :=
  if i < 0xfd then .ok [i]
  else if i < 0x10000 then .ok (0xfd :: int_to_little_endian i 2)
  else if i < 0x100000000 then .ok (0xfe :: int_to_little_endian i 4)
  else if i < 0x10000000000000000 then .ok (0xff :: int_to_little_endian i 8)
  else .error .valueError

/-- helper.read_varint: read one prefix byte; 0xfd/0xfe/0xff announce a
2/4/8 byte little-endian integer, any other byte is the value itself.
`s.read(1)[0]` on an exhausted stream raises IndexError. -/
def read_varint : List Nat → Except PyError (Nat × List Nat)
  | [] => .error .indexError
  | i :: rest =>
    if i = 0xfd then .ok (little_endian_to_int (rest.take 2), rest.drop 2)
    else if i = 0xfe then .ok (little_endian_to_int (rest.take 4), rest.drop 4)
    else if i = 0xff then .ok (little_endian_to_int (rest.take 8), rest.drop 8)
    else .ok (i, rest)

/-- A Script command (script.py): either an opcode (a Python int) or a data
element (a Python bytes value). -/
inductive Cmd where
  | op (n : Nat)
  | data (bs : List Nat)
deriving DecidableEq, Repr

namespace Script

/-- Serialization of a single command inside Script.raw_serialize,
byte-for-byte as the source: an opcode is `int_to_little_endian(cmd, 1)`;
a data element of length < 75 is a one-byte length prefix; the next branch
`length < 75 and length < 0x100` (OP_PUSHDATA1) is kept exactly as written
in the source, where it is unreachable; lengths in [0x100, 520] use
OP_PUSHDATA2 (77) with a two-byte little-endian length; anything else
raises `ValueError("too long an cmd")`. -/
def serialize_cmd : Cmd → Except PyError (List Nat)
  | .op n => if n < 256 then .ok [n] else .error .overflowError
  | .data bs =>
    let length := bs.length
    if length < 75 then .ok (length :: bs)
    else if length < 75 ∧ length < 0x100 then .ok (76 :: length :: bs)
    else if 0x100 ≤ length ∧ length ≤ 520 then
      .ok (77 :: (int_to_little_endian length 2 ++ bs))
    else .error .valueError

/-- Script.raw_serialize: concatenate the serializations of the commands in
order; the first command that fails aborts the whole call. -/
def raw_serialize : List Cmd → Except PyError (List Nat)
  | [] => .ok []
  | c :: cs => do
    let b ← serialize_cmd c
    let rest ← raw_serialize cs
    .ok (b ++ rest)

/-- Script.serialize: the raw serialization prefixed by the varint of its
length. -/
def serialize (cmds : List Cmd) : Except PyError (List Nat) := do
  let result ← raw_serialize cmds
  let v ← encode_varint result.length
  .ok (v ++ result)

/-- The command-reading loop of Script.parse (`while count < length`).
The loop body always advances `count` by at least one, so with initial
`count = 0` it iterates at most `length` times; `fuel` (instantiated with
`length` by `Script.parse`) bounds the iterations structurally, and when it
reaches zero `count ≥ length` already holds, so returning the current state
coincides with the source loop's exit. Branches follow the source: a byte
in [1,75] pushes that many bytes as a data element; 76 (OP_PUSHDATA1) reads
a one-byte length then the data; 77 (OP_PUSHDATA2) reads a two-byte
little-endian length then the data; anything else is an opcode. -/
def parse_cmds : Nat → Nat → Nat → List Nat →
    Except PyError (List Cmd × Nat × List Nat)
  | 0, count, _, s => .ok ([], count, s)
  | fuel + 1, count, length, s =>
    if count < length then
      match s with
      | [] => .error .indexError
      | b :: s1 =>
        if 1 ≤ b ∧ b ≤ 75 then
          match parse_cmds fuel (count + 1 + b) length (s1.drop b) with
          | .ok (cmds, c, r) => .ok (.data (s1.take b) :: cmds, c, r)
          | .error e => .error e
        else if b = 76 then
          let data_length := little_endian_to_int (s1.take 1)
          match parse_cmds fuel (count + 1 + data_length + 1) length
              ((s1.drop 1).drop data_length) with
          | .ok (cmds, c, r) => .ok (.data ((s1.drop 1).take data_length) :: cmds, c, r)
          | .error e => .error e
        else if b = 77 then
          let data_length := little_endian_to_int (s1.take 2)
          match parse_cmds fuel (count + 1 + data_length + 2) length
              ((s1.drop 2).drop data_length) with
          | .ok (cmds, c, r) => .ok (.data ((s1.drop 2).take data_length) :: cmds, c, r)
          | .error e => .error e
        else
          match parse_cmds fuel (count + 1) length s1 with
          | .ok (cmds, c, r) => .ok (.op b :: cmds, c, r)
          | .error e => .error e
    else .ok ([], count, s)

/-- Script.parse: read the varint total length, then run the command loop.
After the loop the source checks `if count != length:` but its body is the
bare expression `("parsing script failed")`, which raises nothing, so a
mismatch is silently ignored and the commands read so far are returned. -/
def parse (s : List Nat) : Except PyError (List Cmd × List Nat) := do
  let (length, s1) ← read_varint s
  let (cmds, _count, rest) ← parse_cmds length 0 length s1
  .ok (cmds, rest)

end Script

/-- tx.py TxIn: previous transaction hash (stored big-endian / natural
order), previous output index, unlocking script, sequence. -/
structure TxIn where
  prev_tx : List Nat
  prev_index : Nat
  script_sig : List Cmd
  sequence : Nat
deriving DecidableEq, Repr

/-- tx.py TxOut: amount in satoshis and the locking script. -/
structure TxOut where
  amount : Nat
  script_pubkey : List Cmd
deriving DecidableEq, Repr

/-- tx.py Tx: version, inputs, outputs, locktime and the out-of-band
testnet flag. -/
structure Tx where
  version : Nat
  tx_ins : List TxIn
  tx_outs : List TxOut
  locktime : Nat
  testnet : Bool
deriving DecidableEq, Repr

namespace TxIn

/-- TxIn.serialize: the previous-tx hash byte-reversed, the 4-byte
little-endian previous index, the serialized script_sig, and the 4-byte
little-endian sequence. -/
def serialize (i : TxIn) : Except PyError (List Nat) := do
  let ss ← Script.serialize i.script_sig
  .ok (i.prev_tx.reverse ++ int_to_little_endian i.prev_index 4 ++ ss ++
        int_to_little_endian i.sequence 4)

/-- TxIn.parse: `s.read(32)[::-1]`, the little-endian previous index, the
script, the little-endian sequence. -/
def parse (s : List Nat) : Except PyError (TxIn × List Nat) := do
  let prev_tx := (s.take 32).reverse
  let s1 := s.drop 32
  let prev_index := little_endian_to_int (s1.take 4)
  let s2 := s1.drop 4
  let (script_sig, s3) ← Script.parse s2
  let sequence := little_endian_to_int (s3.take 4)
  .ok (⟨prev_tx, prev_index, script_sig, sequence⟩, s3.drop 4)

/-- TxIn.value: fetch the previous transaction through the provider
(TxFetcher in the source, abstracted here as a lookup from the prev_tx
hash) and return the amount of the referenced output; `none` models both a
failed fetch and an out-of-range `prev_index`. -/
def value (fetch : List Nat → Option Tx) (i : TxIn) : Option Nat := do
  let tx ← fetch i.prev_tx
  let out ← tx.tx_outs.get? i.prev_index
  .some out.amount

end TxIn

namespace TxOut

/-- TxOut.serialize: the 8-byte little-endian amount followed by the
serialized script_pubkey. -/
def serialize (o : TxOut) : Except PyError (List Nat) := do
  let sp ← Script.serialize o.script_pubkey
  .ok (int_to_little_endian o.amount 8 ++ sp)

/-- TxOut.parse . -/
def parse (s : List Nat) : Except PyError (TxOut × List Nat) := do
  let amount := little_endian_to_int (s.take 8)
  let (script_pubkey, s1) ← Script.parse (s.drop 8)
  .ok (⟨amount, script_pubkey⟩, s1)

end TxOut

namespace Tx

/-- The input-serializing loop of Tx.serialize. -/
def serialize_txins : List TxIn → Except PyError (List Nat)
  | [] => .ok []
  | i :: is => do
    let b ← i.serialize
    let rest ← serialize_txins is
    .ok (b ++ rest)

/-- The output-serializing loop of Tx.serialize. -/
def serialize_txouts : List TxOut → Except PyError (List Nat)
  | [] => .ok []
  | o :: os => do
    let b ← o.serialize
    let rest ← serialize_txouts os
    .ok (b ++ rest)

/-- Tx.serialize: version, varint input count, inputs, varint output count,
outputs, locktime. -/
def serialize (tx : Tx) : Except PyError (List Nat) := do
  let vi ← encode_varint tx.tx_ins.length
  let ins ← serialize_txins tx.tx_ins
  let vo ← encode_varint tx.tx_outs.length
  let outs ← serialize_txouts tx.tx_outs
  .ok (int_to_little_endian tx.version 4 ++ vi ++ ins ++ vo ++ outs ++
        int_to_little_endian tx.locktime 4)

/-- The `for _ in range(num_inputs)` loop of Tx.parse. -/
def parse_txins : Nat → List Nat → Except PyError (List TxIn × List Nat)
  | 0, s => .ok ([], s)
  | n + 1, s => do
    let (i, s1) ← TxIn.parse s
    let (is, s2) ← parse_txins n s1
    .ok (i :: is, s2)

/-- The `for _ in range(num_outputs)` loop of Tx.parse. -/
def parse_txouts : Nat → List Nat → Except PyError (List TxOut × List Nat)
  | 0, s => .ok ([], s)
  | n + 1, s => do
    let (o, s1) ← TxOut.parse s
    let (os, s2) ← parse_txouts n s1
    .ok (o :: os, s2)

/-- Tx.parse: version, varint-counted inputs and outputs, locktime. The
source takes a `testnet` keyword argument but its final line is
`return cls(version, inputs, outputs, locktime, False)`: the argument is
ignored and the testnet attribute is the literal False. -/
def parse (s : List Nat) (_testnet : Bool) : Except PyError (Tx × List Nat) := do
  let version := little_endian_to_int (s.take 4)
  let (num_inputs, s2) ← read_varint (s.drop 4)
  let (inputs, s3) ← parse_txins num_inputs s2
  let (num_outputs, s4) ← read_varint s3
  let (outputs, s5) ← parse_txouts num_outputs s4
  let locktime := little_endian_to_int (s5.take 4)
  .ok (⟨version, inputs, outputs, locktime, false⟩, s5.drop 4)

/-- The input-value summing loop of Tx.fee (`input_sum += tx_in.value()`);
a failed provider lookup aborts. -/
def sum_input_values (fetch : List Nat → Option Tx) : List TxIn → Option Nat
  | [] => .some 0
  | i :: is => do
    let v ← i.value fetch
    let rest ← sum_input_values fetch is
    .some (v + rest)

/-- Tx.fee, exactly as the source computes it: `input_sum` accumulates the
input values with `+=`, but the output loop runs `output_sum -= tx_outs.amount`
(starting from 0), and the function returns `input_sum - output_sum`. -/
def fee (fetch : List Nat → Option Tx) (tx : Tx) : Option Int := do
  let input_sum ← sum_input_values fetch tx.tx_ins
  let output_sum : Int := tx.tx_outs.foldl (fun acc o => acc - (o.amount : Int)) 0
  .some ((input_sum : Int) - output_sum)

end Tx

/-- secp256k1 field prime, signature.py line `P = 2**256 - 2**32 - 977`. -/
def P : Nat := 2 ^ 256 - 2 ^ 32 - 977

/-- secp256k1 group order N from signature.py. -/
def N : Nat := 0xFFFFFFFFFFFFFFFFFFFFFFFFFFFFFFFEBAAEDCE6AF48A03BBFD25E8CD0364141

/-- Curve coefficient A = 0. -/
def A : Nat := 0

/-- Curve coefficient B = 7. -/
def B : Nat := 7

/-- Generator x coordinate from signature.py. -/
def GX : Nat := 0x79BE667EF9DCBBAC55A06295CE870B07029BFCDB2DCE28D959F2815B16F81798

/-- Generator y coordinate from signature.py. -/
def GY : Nat := 0x483ADA7726A3C4655DA4FBFC0E1108A8FD17B448A68554199C47D08FFB10D4B8

/-- Modular exponentiation by repeated squaring, the semantics of Python's
built-in three-argument `pow(b, e, m)` for non-negative integer arguments
and positive modulus. The fuel argument bounds the halvings of the
exponent; every exponent that occurs below is < 2^256, so fuel 300 is
always enough (the recursion stops as soon as the exponent is 0). -/
def pow_mod : Nat → Nat → Nat → Nat → Nat
  | 0, _, _, m => 1 % m
  | fuel + 1, b, e, m =>
    if e = 0 then 1 % m
    else
      let h := pow_mod fuel b (e / 2) m
      let h2 := h * h % m
      if e % 2 = 1 then h2 * b % m else h2

/-- A Python exponent value as it reaches FieldElement.__pow__: either an
int, or a float. The float's numeric value is irrelevant to the embedding
because the only effect a float exponent can have is the TypeError raised
by the three-argument `pow` (see `fe_pow`). -/
inductive PyExp where
  | int (e : Int)
  | float
deriving DecidableEq, Repr

/-- fieldelement.py FieldElement.__pow__ for the prime P: first
`n = exponent % (prime - 1)` (Python's `%` on a float returns a float and
on an int returns a non-negative int), then `pow(self.num, n, self.prime)`.
With a float `n`, three-argument `pow` raises
`TypeError: pow() 3rd argument not allowed unless all arguments are integers`. -/
def fe_pow (num : Nat) : PyExp → Except PyError Nat
  | .int e => .ok (pow_mod 300 num (e % ((P : Int) - 1)).toNat P)
  | .float => .error .typeError

namespace S256Field

/-- S256Field / FieldElement constructor: rejects `num` outside [0, P)
with ValueError (a Nat is never negative). -/
def mk (num : Nat) : Except PyError Nat :=
  if num < P then .ok num else .error .valueError

/-- S256Field.sqrt: the source computes `self ** ((P + 1) / 4)`. In
Python 3 `/` is true division, so `(P + 1) / 4` is a float, and
FieldElement.__pow__ then hands a float exponent to the three-argument
`pow`, which raises TypeError; the call never returns a value. -/
def sqrt (num : Nat) : Except PyError Nat :=
  fe_pow num .float

/-- The computation the specification states for sqrt, with the exact
integer quotient (P + 1) / 4 as the exponent (P ≡ 3 mod 4 makes the
quotient exact); kept separate from `sqrt`, which embeds what the source
actually executes. -/
def sqrt_spec (num : Nat) : Nat :=
  pow_mod 300 num ((P + 1) / 4) P

end S256Field

/-- An affine secp256k1 point as produced by S256Point.parse (the parse
paths never construct the point at infinity). -/
structure S256PointA where
  x : Nat
  y : Nat
deriving DecidableEq, Repr

namespace S256Point

/-- The S256Point constructor on affine coordinates: S256Field range
checks on x and y, then Point.__init__'s on-curve check
`y**2 != x**3 + a*x + b` over the field mod P (a = 0, b = 7), raising
ValueError off curve. -/
def mkChecked (x y : Nat) : Except PyError S256PointA := do
  let xf ← S256Field.mk x
  let yf ← S256Field.mk y
  let lhs ← fe_pow yf (.int 2)
  let rhs0 ← fe_pow xf (.int 3)
  let rhs := ((rhs0 + A * xf % P) % P + B) % P
  if lhs = rhs then .ok ⟨xf, yf⟩ else .error .valueError

/-- S256Point.parse on a SEC byte string. Prefix 4 reads the uncompressed
x and y. Otherwise the source sets `is_even = sec_bin[0] == 2`, range
checks x, computes `alpha = x**3 + S256Field(B)` and `beta = alpha.sqrt()`
(which raises TypeError, see `S256Field.sqrt`). The parity branch after it
is kept faithfully: when beta is even the source sets `even_beta = beta`
and `odd_beta = S256Field(P - beta.num)`; when beta is odd it assigns
`even_beta` twice (net effect `even_beta = beta`) and never assigns
`odd_beta`, so the odd-prefix path would raise UnboundLocalError. -/
def parse (sec_bin : List Nat) : Except PyError S256PointA :=
  match sec_bin with
  | [] => .error .indexError
  | b :: rest =>
    if b = 4 then
      let x := big_endian_to_int (rest.take 32)
      let y := big_endian_to_int ((rest.drop 32).take 32)
      mkChecked x y
    else
      let is_even := b = 2
      do
        let x ← S256Field.mk (big_endian_to_int rest)
        let cube ← fe_pow x (.int 3)
        let alpha := (cube + B) % P
        let beta ← S256Field.sqrt alpha
        let even_beta := beta
        let odd_beta : Option Nat := if beta % 2 = 0 then .some (P - beta) else .none
        if is_even then mkChecked x even_beta
        else
          match odd_beta with
          | .some ob => mkChecked x ob
          | .none => .error .unboundLocalError

end S256Point

namespace Signature

/-- Python bytes.lstrip(b"\x00"): drop leading zero bytes. -/
def lstrip_zeros (bs : List Nat) : List Nat :=
  bs.dropWhile (fun b => b = 0)

/-- Signature.der, exactly as the source computes it. `rbin` is the
32-byte big-endian r, stripped of leading zeros ( `[0]` of an empty strip
raises IndexError), 0x00-prefixed when the top bit of its first byte is
set. The source then computes `sbin = self.s.to_bytes(32, "big")` but
immediately overwrites it with `sbin = rbin.lstrip(b"\x00")` — r's bytes,
not s's — and the second length byte is written as `len(rbin)` as well. -/
def der (r s : Nat) : Except PyError (List Nat) := do
  if r < 2 ^ 256 then
    match lstrip_zeros (int_to_big_endian r 32) with
    | [] => .error .indexError
    | rb0 :: rbt =>
      let rbin := if rb0 &&& 0x80 ≠ 0 then 0 :: rb0 :: rbt else rb0 :: rbt
      let result := 0x02 :: rbin.length :: rbin
      if s < 2 ^ 256 then
        match lstrip_zeros rbin with
        | [] => .error .indexError
        | sb0 :: sbt =>
          let sbin := if sb0 &&& 0x80 ≠ 0 then 0 :: sb0 :: sbt else sb0 :: sbt
          let result := result ++ 0x02 :: rbin.length :: sbin
          .ok (0x30 :: result.length :: result)
      else .error .overflowError
  else .error .overflowError

end Signature

namespace PrivateKey

/-- The reduction of the message hash z at the top of
PrivateKey.deterministic_k, exactly as the source writes it:
`if z > N: z -= N` — a strict comparison, and a single subtraction (which
equals z mod N for every z < 2^256 except that z = N itself is left
unreduced). -/
def deterministic_k_reduce (z : Nat) : Nat :=
  if z > N then z - N else z

/-- The 32-byte big-endian `z_bytes` that deterministic_k feeds into every
HMAC-SHA256 call, after the reduction above. -/
def deterministic_k_z_bytes (z : Nat) : List Nat :=
  int_to_big_endian (deterministic_k_reduce z) 32

end PrivateKey

/-! Well-formedness predicates for the serialization round trip. They
record the conditions under which the source's serializers run without
raising and produce bytes the parsers invert: script opcodes must not
collide with the push encodings 1..77 (a bare opcode in that range is
re-read by Script.parse as a push instruction), data elements must have a
length the buggy raw_serialize still accepts (1..74 or 256..520; 0 would
re-parse as opcode 0 and 75..255 raises, see claim C3), prev_tx hashes
are 32 bytes, and the numeric fields fit their wire widths. -/

/-- The bytes `serialize_cmd` produces on the commands it accepts. -/
def cmd_bytes : Cmd → List Nat
  | .op n => [n]
  | .data bs =>
    if bs.length < 75 then bs.length :: bs
    else 77 :: (int_to_little_endian bs.length 2 ++ bs)

/-- The bytes `Script.raw_serialize` produces on the command lists it
accepts. -/
def cmds_bytes : List Cmd → List Nat
  | [] => []
  | c :: cs => cmd_bytes c ++ cmds_bytes cs

/-- A command that serializes without error and is read back identically:
an opcode that is 0 or in [78, 255], or a data element of length 1..74 or
256..520. -/
def wf_cmd : Cmd → Prop
  | .op n => n = 0 ∨ (78 ≤ n ∧ n ≤ 255)
  | .data bs => (1 ≤ bs.length ∧ bs.length ≤ 74) ∨
      (256 ≤ bs.length ∧ bs.length ≤ 520)

instance : DecidablePred wf_cmd := fun c =>
  match c with
  | .op n => inferInstanceAs (Decidable (_ ∨ _))
  | .data _ => inferInstanceAs (Decidable (_ ∨ _))

/-- A script whose commands are all well formed and whose raw
serialization fits a varint. -/
def wf_script (cmds : List Cmd) : Prop :=
  (∀ c ∈ cmds, wf_cmd c) ∧ (cmds_bytes cmds).length < 2 ^ 64

instance : DecidablePred wf_script := fun cmds =>
  inferInstanceAs (Decidable (_ ∧ _))

/-- A TxIn with a 32-byte prev_tx, in-range index and sequence, and a
well-formed script. -/
def wf_txin (i : TxIn) : Prop :=
  i.prev_tx.length = 32 ∧ i.prev_index < 2 ^ 32 ∧ i.sequence < 2 ^ 32 ∧
    wf_script i.script_sig

instance : DecidablePred wf_txin := fun i =>
  inferInstanceAs (Decidable (_ ∧ _))

/-- A TxOut with an in-range amount and a well-formed script. -/
def wf_txout (o : TxOut) : Prop :=
  o.amount < 2 ^ 64 ∧ wf_script o.script_pubkey

instance : DecidablePred wf_txout := fun o =>
  inferInstanceAs (Decidable (_ ∧ _))

/-- A transaction whose fields are in wire range and whose inputs and
outputs are all well formed. -/
def wf_tx (tx : Tx) : Prop :=
  tx.version < 2 ^ 32 ∧ tx.locktime < 2 ^ 32 ∧
    tx.tx_ins.length < 2 ^ 64 ∧ tx.tx_outs.length < 2 ^ 64 ∧
    (∀ i ∈ tx.tx_ins, wf_txin i) ∧ (∀ o ∈ tx.tx_outs, wf_txout o)

instance (tx : Tx) : Decidable (wf_tx tx) :=
  inferInstanceAs (Decidable (_ ∧ _))

/-! Helper lemmas. -/

/-- Inversion for a successful Except bind. -/
theorem except_bind_ok {ε α β : Type} (x : Except ε α) (f : α → Except ε β)
    (b : β) (h : (x >>= f) = .ok b) : ∃ a, x = .ok a ∧ f a = .ok b := by
  cases x with
  | error e => exact absurd h (by simp [Bind.bind, Except.bind])
  | ok a => exact ⟨a, rfl, by simpa [Bind.bind, Except.bind] using h⟩

theorem length_int_to_little_endian :
    ∀ (len n : Nat), (int_to_little_endian n len).length = len
  | 0, _ => rfl
  | len + 1, n => by
    simp [int_to_little_endian, length_int_to_little_endian len (n / 256)]

/-- Reading back a little-endian serialization recovers the value. -/
theorem little_endian_roundtrip :
    ∀ (len n : Nat), n < 256 ^ len →
      little_endian_to_int (int_to_little_endian n len) = n
  | 0, n, h => by
    simp [pow_zero] at h
    simp [int_to_little_endian, little_endian_to_int, h]
  | len + 1, n, h => by
    have hdiv : n / 256 < 256 ^ len := by
      apply Nat.div_lt_of_lt_mul
      calc n < 256 ^ (len + 1) := h
        _ = 256 * 256 ^ len := by ring
    simp [int_to_little_endian, little_endian_to_int,
      little_endian_roundtrip len (n / 256) hdiv]
    omega

theorem take_all_append {α : Type} (xs ys : List α) (n : Nat)
    (h : xs.length = n) : (xs ++ ys).take n = xs := by
  subst h; exact List.take_left xs ys

theorem drop_all_append {α : Type} (xs ys : List α) (n : Nat)
    (h : xs.length = n) : (xs ++ ys).drop n = ys := by
  subst h; exact List.drop_left xs ys

/-- Varint round trip: for every value below 2^64 the encoder succeeds and
read_varint inverts it in front of any continuation of the stream. -/
theorem encode_read_varint (n : Nat) (h : n < 2 ^ 64) :
    ∃ v, encode_varint n = .ok v ∧
      ∀ rest, read_varint (v ++ rest) = .ok (n, rest) := by
  by_cases h1 : n < 0xfd
  · refine ⟨[n], by simp [encode_varint, h1], fun rest => ?_⟩
    have e1 : ¬ n = 0xfd := by omega
    have e2 : ¬ n = 0xfe := by omega
    have e3 : ¬ n = 0xff := by omega
    simp [read_varint, e1, e2, e3]
  · by_cases h2 : n < 0x10000
    · refine ⟨0xfd :: int_to_little_endian n 2,
        by simp [encode_varint, h1, h2], fun rest => ?_⟩
      have ht := take_all_append (int_to_little_endian n 2) rest 2
        (length_int_to_little_endian 2 n)
      have hd := drop_all_append (int_to_little_endian n 2) rest 2
        (length_int_to_little_endian 2 n)
      have hn : n < 256 ^ 2 := by norm_num; omega
      simp [read_varint, ht, hd, little_endian_roundtrip 2 n hn]
    · by_cases h3 : n < 0x100000000
      · refine ⟨0xfe :: int_to_little_endian n 4,
          by simp [encode_varint, h1, h2, h3], fun rest => ?_⟩
        have ht := take_all_append (int_to_little_endian n 4) rest 4
          (length_int_to_little_endian 4 n)
        have hd := drop_all_append (int_to_little_endian n 4) rest 4
          (length_int_to_little_endian 4 n)
        have hn : n < 256 ^ 4 := by norm_num; omega
        simp [read_varint, ht, hd, little_endian_roundtrip 4 n hn]
      · have h4 : n < 0x10000000000000000 := by
          have : (2 : Nat) ^ 64 = 0x10000000000000000 := by norm_num
          omega
        refine ⟨0xff :: int_to_little_endian n 8,
          by simp [encode_varint, h1, h2, h3, h4], fun rest => ?_⟩
        have ht := take_all_append (int_to_little_endian n 8) rest 8
          (length_int_to_little_endian 8 n)
        have hd := drop_all_append (int_to_little_endian n 8) rest 8
          (length_int_to_little_endian 8 n)
        have hn : n < 256 ^ 8 := by norm_num; omega
        simp [read_varint, ht, hd, little_endian_roundtrip 8 n hn]

/-- A well-formed command serializes without error to its intended bytes. -/
theorem serialize_cmd_wf (c : Cmd) (h : wf_cmd c) :
    Script.serialize_cmd c = .ok (cmd_bytes c) := by
  cases c with
  | op n =>
    have hn : n < 256 := by rcases h with h | ⟨_, h⟩ <;> omega
    simp [Script.serialize_cmd, cmd_bytes, hn]
  | data bs =>
    rcases h with ⟨h1, h2⟩ | ⟨h1, h2⟩
    · have : bs.length < 75 := by omega
      simp [Script.serialize_cmd, cmd_bytes, this]
    · have e1 : ¬ bs.length < 75 := by omega
      simp [Script.serialize_cmd, cmd_bytes, e1, h1, h2]

/-- A list of well-formed commands raw-serializes without error to the
concatenation of the intended bytes. -/
theorem raw_serialize_wf (cmds : List Cmd) (h : ∀ c ∈ cmds, wf_cmd c) :
    Script.raw_serialize cmds = .ok (cmds_bytes cmds) := by
  induction cmds with
  | nil => rfl
  | cons c cs ih =>
    have hc := serialize_cmd_wf c (h c (by simp))
    have hcs := ih (fun x hx => h x (by simp [hx]))
    simp [Script.raw_serialize, hc, hcs, cmds_bytes, Bind.bind, Except.bind]

/-- The parse loop of Script.parse inverts the raw serialization of any
well-formed command list placed in front of an arbitrary continuation of
the stream, ending exactly at the declared byte budget. -/
theorem parse_cmds_roundtrip :
    ∀ (cmds : List Cmd) (rest : List Nat) (count fuel len : Nat),
      (∀ c ∈ cmds, wf_cmd c) →
      count + (cmds_bytes cmds).length = len →
      len ≤ count + fuel →
      Script.parse_cmds fuel count len (cmds_bytes cmds ++ rest) =
        .ok (cmds, len, rest) := by
  intro cmds
  induction cmds with
  | nil =>
    intro rest count fuel len _ hlen hfuel
    simp [cmds_bytes] at hlen
    subst hlen
    cases fuel with
    | zero => simp [Script.parse_cmds, cmds_bytes]
    | succ f => simp [Script.parse_cmds, cmds_bytes]
  | cons c cs ih =>
    intro rest count fuel len h hlen hfuel
    have hwfc : wf_cmd c := h c (by simp)
    have hwfcs : ∀ x ∈ cs, wf_cmd x := fun x hx => h x (by simp [hx])
    simp only [cmds_bytes, List.length_append] at hlen
    have hpos : 1 ≤ (cmd_bytes c).length := by
      cases c with
      | op n => simp [cmd_bytes]
      | data bs => by_cases hb : bs.length < 75 <;> simp [cmd_bytes, hb]
    have hc : count < len := by omega
    cases fuel with
    | zero => exact absurd hc (by omega)
    | succ f =>
      cases c with
      | op n =>
        have hwn : n = 0 ∨ (78 ≤ n ∧ n ≤ 255) := hwfc
        have hcb : (cmd_bytes (Cmd.op n)).length = 1 := by simp [cmd_bytes]
        have e1 : ¬ (1 ≤ n ∧ n ≤ 75) := by omega
        have e2 : ¬ n = 76 := by omega
        have e3 : ¬ n = 77 := by omega
        have ihr := ih rest (count + 1) f len hwfcs (by omega) (by omega)
        simp [Script.parse_cmds, hc, e1, e2, e3, cmds_bytes, cmd_bytes, ihr]
      | data bs =>
        have hwb : (1 ≤ bs.length ∧ bs.length ≤ 74) ∨
            (256 ≤ bs.length ∧ bs.length ≤ 520) := hwfc
        rcases hwb with ⟨hb1, hb2⟩ | ⟨hb1, hb2⟩
        · have hsmall : bs.length < 75 := by omega
          have hcb : (cmd_bytes (Cmd.data bs)).length = 1 + bs.length := by
            simp [cmd_bytes, hsmall]
            omega
          have e1 : 1 ≤ bs.length := hb1
          have e2 : bs.length ≤ 75 := by omega
          have ht := take_all_append bs (cmds_bytes cs ++ rest) bs.length rfl
          have hd := drop_all_append bs (cmds_bytes cs ++ rest) bs.length rfl
          have ihr := ih rest (count + 1 + bs.length) f len hwfcs (by omega)
            (by omega)
          simp [Script.parse_cmds, hc, e1, e2, cmds_bytes, cmd_bytes, hsmall,
            List.append_assoc, ht, hd, ihr]
        · have hbig : ¬ bs.length < 75 := by omega
          have hcb : (cmd_bytes (Cmd.data bs)).length = 3 + bs.length := by
            simp [cmd_bytes, hbig, length_int_to_little_endian]
            omega
          have hn2 : bs.length < 256 ^ 2 := by norm_num; omega
          have ht2 := take_all_append (int_to_little_endian bs.length 2)
            (bs ++ (cmds_bytes cs ++ rest)) 2
            (length_int_to_little_endian 2 bs.length)
          have hd2 := drop_all_append (int_to_little_endian bs.length 2)
            (bs ++ (cmds_bytes cs ++ rest)) 2
            (length_int_to_little_endian 2 bs.length)
          have ht := take_all_append bs (cmds_bytes cs ++ rest) bs.length rfl
          have hd := drop_all_append bs (cmds_bytes cs ++ rest) bs.length rfl
          have ihr := ih rest (count + 1 + bs.length + 2) f len hwfcs
            (by omega) (by omega)
          simp [Script.parse_cmds, hc, cmds_bytes, cmd_bytes, hbig,
            List.append_assoc, ht2, hd2,
            little_endian_roundtrip 2 bs.length hn2, ht, hd, ihr]

/-- Script serialization round trip: a well-formed script serializes
without error and Script.parse inverts it in front of any continuation. -/
theorem script_roundtrip (cmds : List Cmd) (h : wf_script cmds) :
    ∃ bs, Script.serialize cmds = .ok bs ∧
      ∀ rest, Script.parse (bs ++ rest) = .ok (cmds, rest) := by
  obtain ⟨hwf, hlen⟩ := h
  obtain ⟨v, hv, hr⟩ := encode_read_varint (cmds_bytes cmds).length hlen
  refine ⟨v ++ cmds_bytes cmds, ?_, fun rest => ?_⟩
  · simp [Script.serialize, raw_serialize_wf cmds hwf, hv, Bind.bind,
      Except.bind]
  · have hp := parse_cmds_roundtrip cmds rest 0 (cmds_bytes cmds).length
      (cmds_bytes cmds).length hwf (by omega) (by omega)
    simp [Script.parse, List.append_assoc, hr (cmds_bytes cmds ++ rest), hp,
      Bind.bind, Except.bind]

/-- TxIn serialization round trip. -/
theorem txin_roundtrip (i : TxIn) (h : wf_txin i) :
    ∃ bs, TxIn.serialize i = .ok bs ∧
      ∀ rest, TxIn.parse (bs ++ rest) = .ok (i, rest) := by
  obtain ⟨pt, pi, ss, sq⟩ := i
  obtain ⟨hpt, hpi, hsq, hss⟩ := h
  simp only at hpt hpi hsq hss
  obtain ⟨sbs, hser, hpar⟩ := script_roundtrip ss hss
  refine ⟨pt.reverse ++ int_to_little_endian pi 4 ++ sbs ++
      int_to_little_endian sq 4, ?_, fun rest => ?_⟩
  · simp [TxIn.serialize, hser, Bind.bind, Except.bind]
  · have hptr : pt.reverse.length = 32 := by simp [hpt]
    have ht32 := take_all_append pt.reverse
      (int_to_little_endian pi 4 ++ (sbs ++ (int_to_little_endian sq 4 ++ rest)))
      32 hptr
    have hd32 := drop_all_append pt.reverse
      (int_to_little_endian pi 4 ++ (sbs ++ (int_to_little_endian sq 4 ++ rest)))
      32 hptr
    have ht4 := take_all_append (int_to_little_endian pi 4)
      (sbs ++ (int_to_little_endian sq 4 ++ rest)) 4
      (length_int_to_little_endian 4 pi)
    have hd4 := drop_all_append (int_to_little_endian pi 4)
      (sbs ++ (int_to_little_endian sq 4 ++ rest)) 4
      (length_int_to_little_endian 4 pi)
    have htq := take_all_append (int_to_little_endian sq 4) rest 4
      (length_int_to_little_endian 4 sq)
    have hdq := drop_all_append (int_to_little_endian sq 4) rest 4
      (length_int_to_little_endian 4 sq)
    have hpi4 : pi < 256 ^ 4 := by norm_num; omega
    have hsq4 : sq < 256 ^ 4 := by norm_num; omega
    simp [TxIn.parse, List.append_assoc, ht32, hd32, ht4, hd4,
      little_endian_roundtrip 4 pi hpi4,
      hpar (int_to_little_endian sq 4 ++ rest), htq, hdq,
      little_endian_roundtrip 4 sq hsq4, Bind.bind, Except.bind]

/-- TxOut serialization round trip. -/
theorem txout_roundtrip (o : TxOut) (h : wf_txout o) :
    ∃ bs, TxOut.serialize o = .ok bs ∧
      ∀ rest, TxOut.parse (bs ++ rest) = .ok (o, rest) := by
  obtain ⟨am, sp⟩ := o
  obtain ⟨ham, hsp⟩ := h
  simp only at ham hsp
  obtain ⟨sbs, hser, hpar⟩ := script_roundtrip sp hsp
  refine ⟨int_to_little_endian am 8 ++ sbs, ?_, fun rest => ?_⟩
  · simp [TxOut.serialize, hser, Bind.bind, Except.bind]
  · have ht8 := take_all_append (int_to_little_endian am 8) (sbs ++ rest) 8
      (length_int_to_little_endian 8 am)
    have hd8 := drop_all_append (int_to_little_endian am 8) (sbs ++ rest) 8
      (length_int_to_little_endian 8 am)
    have ham8 : am < 256 ^ 8 := by norm_num; omega
    simp [TxOut.parse, List.append_assoc, ht8, hd8,
      little_endian_roundtrip 8 am ham8, hpar rest, Bind.bind, Except.bind]

/-- Round trip of the input list loops of Tx.serialize / Tx.parse. -/
theorem txins_roundtrip (ins : List TxIn) (h : ∀ i ∈ ins, wf_txin i) :
    ∃ bs, Tx.serialize_txins ins = .ok bs ∧
      ∀ rest, Tx.parse_txins ins.length (bs ++ rest) = .ok (ins, rest) := by
  induction ins with
  | nil => exact ⟨[], rfl, fun rest => rfl⟩
  | cons i is ih =>
    obtain ⟨bs, hser, hpar⟩ := txin_roundtrip i (h i (by simp))
    obtain ⟨bss, hsers, hpars⟩ := ih (fun x hx => h x (by simp [hx]))
    refine ⟨bs ++ bss, ?_, fun rest => ?_⟩
    · simp [Tx.serialize_txins, hser, hsers, Bind.bind, Except.bind]
    · simp [Tx.parse_txins, List.append_assoc, hpar (bss ++ rest),
        hpars rest, Bind.bind, Except.bind]

/-- Round trip of the output list loops of Tx.serialize / Tx.parse. -/
theorem txouts_roundtrip (outs : List TxOut) (h : ∀ o ∈ outs, wf_txout o) :
    ∃ bs, Tx.serialize_txouts outs = .ok bs ∧
      ∀ rest, Tx.parse_txouts outs.length (bs ++ rest) = .ok (outs, rest) := by
  induction outs with
  | nil => exact ⟨[], rfl, fun rest => rfl⟩
  | cons o os ih =>
    obtain ⟨bs, hser, hpar⟩ := txout_roundtrip o (h o (by simp))
    obtain ⟨bss, hsers, hpars⟩ := ih (fun x hx => h x (by simp [hx]))
    refine ⟨bs ++ bss, ?_, fun rest => ?_⟩
    · simp [Tx.serialize_txouts, hser, hsers, Bind.bind, Except.bind]
    · simp [Tx.parse_txouts, List.append_assoc, hpar (bss ++ rest),
        hpars rest, Bind.bind, Except.bind]

/-! Claim theorems. -/

/-- C1: the claim states that Tx.fee equals the sum of the input values
minus the sum of the output amounts whenever the inputs resolve. The
source instead runs `output_sum -= tx_outs.amount` (so output_sum is the
negated sum) and returns `input_sum - output_sum`, which ADDS the output
amounts: for a transaction with a single 100-satoshi input and a single
30-satoshi output the source returns 130, not 100 - 30 = 70. -/
theorem tx_fee_adds_output_sum :
    Tx.fee
      (fun pt => if pt = List.replicate 32 0xaa then
        .some ⟨1, [], [⟨100, []⟩], 0, false⟩ else .none)
      ⟨1, [⟨List.replicate 32 0xaa, 0, [], 0xffffffff⟩], [⟨30, []⟩], 0, false⟩
      = .some 130 ∧ (130 : Int) ≠ 100 - 30 := by
  constructor
  · decide
  · decide

/-- C2: the claim states that Signature.der serializes r and s each from
its own value. The source overwrites sbin with `rbin.lstrip(b"\x00")` and
writes the second length byte as `len(rbin)`, so the s half repeats r's
bytes: der of (r, s) = (1, 2) yields 30 06 02 01 01 02 01 01 (s encoded as
01, r's byte) instead of the claimed 30 06 02 01 01 02 01 02. -/
theorem signature_der_reuses_rbin :
    Signature.der 1 2 = .ok [0x30, 6, 2, 1, 1, 2, 1, 1] ∧
      Signature.der 1 2 ≠ .ok [0x30, 6, 2, 1, 1, 2, 1, 2] := by
  constructor
  · decide
  · decide

/-- C3: the claim states that data elements of length 1..75 are emitted
with a one-byte length prefix, 76..255 with OP_PUSHDATA1, 256..520 with
OP_PUSHDATA2, without error. In the source the first branch tests
`length < 75` (so 75 falls through) and the OP_PUSHDATA1 branch tests
`length < 75 and length < 0x100`, which is unreachable, so every data
element of length 75..255 raises ValueError; only 256..520 still reaches
the OP_PUSHDATA2 encoding. -/
theorem raw_serialize_rejects_pushdata1_range :
    Script.raw_serialize [Cmd.data (List.replicate 75 0)] = .error .valueError ∧
    Script.raw_serialize [Cmd.data (List.replicate 200 0)] = .error .valueError ∧
    Script.raw_serialize [Cmd.data (List.replicate 300 7)] =
      .ok (77 :: (int_to_little_endian 300 2 ++ List.replicate 300 7)) := by
  refine ⟨by decide, by decide, by decide⟩

/-- C4: the claim states that S256Point.parse of a valid compressed SEC
encoding returns the on-curve point whose y parity matches the prefix.
The source calls `alpha.sqrt()`, which raises TypeError on every input
(see `S256Field.sqrt`), so even the compressed SEC encoding of the
generator G (prefix 02, since GY is even) never yields a point; moreover
the parity branch after that call reassigns even_beta twice and leaves
odd_beta unbound on the odd-beta path. -/
theorem s256point_parse_compressed_raises :
    S256Point.parse (2 :: int_to_big_endian GX 32) = .error .typeError ∧
      (GY * GY) % P = (GX * GX % P * GX % P + 7) % P ∧ GY % 2 = 0 := by
  refine ⟨by decide, by decide, by decide⟩

/-- C5: the claim states that S256Field.sqrt returns v^((P+1)/4) with the
exact integer quotient, whose square is v for quadratic residues. The
source computes the exponent as `(P + 1) / 4` with Python 3 true division,
producing a float, and the three-argument pow inside FieldElement.__pow__
then raises TypeError, so sqrt never returns on any input. With the exact
integer quotient the claimed computation does hold, e.g. it recovers the
even root GY from its square. -/
theorem s256field_sqrt_raises :
    (∀ v, S256Field.sqrt v = .error .typeError) ∧
      S256Field.sqrt_spec ((GY * GY) % P) = GY := by
  refine ⟨fun v => rfl, by decide⟩

/-- C7 (amended): for every transaction with in-range fields, 32-byte
prev_tx hashes, script data elements of a length the serializer accepts
(1..74 or 256..520), and script opcodes that do not collide with the push
encodings (0 or 78..255), Tx.serialize succeeds and Tx.parse inverts it,
reproducing the version, locktime, inputs and outputs (with the testnet
attribute pinned to false by Tx.parse). The original claim, without the
opcode restriction, is refuted by `tx_roundtrip_fails_on_push_opcode`. -/
theorem tx_parse_serialize_roundtrip (tx : Tx) (h : wf_tx tx) :
    ∃ bs, Tx.serialize tx = .ok bs ∧
      Tx.parse bs false = .ok ({ tx with testnet := false }, []) := by
  obtain ⟨ver, ins, outs, lt, tn⟩ := tx
  obtain ⟨hver, hlt, hni, hno, hins, houts⟩ := h
  simp only at hver hlt hni hno hins houts
  obtain ⟨vi, hvi, hvir⟩ := encode_read_varint ins.length hni
  obtain ⟨insB, hinsS, hinsP⟩ := txins_roundtrip ins hins
  obtain ⟨vo, hvo, hvor⟩ := encode_read_varint outs.length hno
  obtain ⟨outsB, houtsS, houtsP⟩ := txouts_roundtrip outs houts
  refine ⟨int_to_little_endian ver 4 ++ vi ++ insB ++ vo ++ outsB ++
      int_to_little_endian lt 4, ?_, ?_⟩
  · simp [Tx.serialize, hvi, hinsS, hvo, houtsS, Bind.bind, Except.bind]
  · have ht4 := take_all_append (int_to_little_endian ver 4)
      (vi ++ (insB ++ (vo ++ (outsB ++ int_to_little_endian lt 4)))) 4
      (length_int_to_little_endian 4 ver)
    have hd4 := drop_all_append (int_to_little_endian ver 4)
      (vi ++ (insB ++ (vo ++ (outsB ++ int_to_little_endian lt 4)))) 4
      (length_int_to_little_endian 4 ver)
    have hver4 : ver < 256 ^ 4 := by norm_num; omega
    have hlt4 : lt < 256 ^ 4 := by norm_num; omega
    have htl : (int_to_little_endian lt 4).take 4 = int_to_little_endian lt 4 := by
      simpa using take_all_append (int_to_little_endian lt 4) [] 4
        (length_int_to_little_endian 4 lt)
    have hdl : (int_to_little_endian lt 4).drop 4 = [] := by
      simpa using drop_all_append (int_to_little_endian lt 4) [] 4
        (length_int_to_little_endian 4 lt)
    simp [Tx.parse, List.append_assoc, ht4, hd4,
      little_endian_roundtrip 4 ver hver4,
      hvir (insB ++ (vo ++ (outsB ++ int_to_little_endian lt 4))),
      hinsP (vo ++ (outsB ++ int_to_little_endian lt 4)),
      hvor (outsB ++ int_to_little_endian lt 4),
      houtsP (int_to_little_endian lt 4), htl, hdl,
      little_endian_roundtrip 4 lt hlt4, Bind.bind, Except.bind]

/-- Witness for C7: a concrete two-output transaction (P2PKH-shaped
scripts, one OP_PUSHDATA2 data element) is well formed and round trips. -/
theorem tx_parse_serialize_roundtrip_witness :
    wf_tx ⟨1,
      [⟨List.replicate 32 0xab, 1,
        [Cmd.data (List.replicate 20 5), Cmd.op 0xac], 0xfffffffe⟩],
      [⟨100000, [Cmd.op 0x76, Cmd.op 0xa9, Cmd.data (List.replicate 20 9),
        Cmd.op 0x88, Cmd.op 0xac]⟩,
       ⟨50000, [Cmd.data (List.replicate 300 1)]⟩],
      600000, true⟩ ∧
    ∃ bs, Tx.serialize ⟨1,
      [⟨List.replicate 32 0xab, 1,
        [Cmd.data (List.replicate 20 5), Cmd.op 0xac], 0xfffffffe⟩],
      [⟨100000, [Cmd.op 0x76, Cmd.op 0xa9, Cmd.data (List.replicate 20 9),
        Cmd.op 0x88, Cmd.op 0xac]⟩,
       ⟨50000, [Cmd.data (List.replicate 300 1)]⟩],
      600000, true⟩ = .ok bs ∧
      Tx.parse bs false = .ok (⟨1,
        [⟨List.replicate 32 0xab, 1,
          [Cmd.data (List.replicate 20 5), Cmd.op 0xac], 0xfffffffe⟩],
        [⟨100000, [Cmd.op 0x76, Cmd.op 0xa9, Cmd.data (List.replicate 20 9),
          Cmd.op 0x88, Cmd.op 0xac]⟩,
         ⟨50000, [Cmd.data (List.replicate 300 1)]⟩],
        600000, false⟩, []) :=
  ⟨by decide, tx_parse_serialize_roundtrip _ (by decide)⟩

/-- Counterexample for C7 as originally stated: a transaction whose only
script command is the bare opcode 1 — a valid command of the data model,
with every field in range and no data element at all — does not round
trip: Script.parse re-reads the opcode byte 1 as a one-byte push and the
reconstructed input list differs. -/
theorem tx_roundtrip_fails_on_push_opcode :
    ((Tx.serialize ⟨1, [⟨List.replicate 32 0x11, 0, [Cmd.op 1], 0xffffffff⟩],
        [], 0, false⟩).bind (fun bs => Tx.parse bs false)).map
      (fun p => p.1.tx_ins) ≠
      .ok [⟨List.replicate 32 0x11, 0, [Cmd.op 1], 0xffffffff⟩] := by
  decide

/-- C8: the claim states that Script.parse fails with a parse error when
the declared varint script length disagrees with the bytes consumed. On
the stream 01 05 01 02 03 04 05 the declared length is 1 but the first
command byte 05 pushes five bytes, consuming 6 bytes in total; the
source's mismatch check is the bare expression ("parsing script failed"),
which raises nothing, so parse returns the script instead of failing. -/
theorem script_parse_ignores_length_mismatch :
    Script.parse [1, 5, 1, 2, 3, 4, 5] = .ok ([Cmd.data [1, 2, 3, 4, 5]], []) := by
  decide

/-- C9: the claim states that deterministic_k reduces z modulo N whenever
z ≥ N, in particular mapping z = N to 0 so that z and z mod N produce the
same HMAC input. The source's guard is the strict `if z > N: z -= N`, so
z = N is left unreduced and the 32-byte z_bytes fed to HMAC-SHA256 differ
between z = N and z mod N = 0. -/
theorem deterministic_k_boundary_not_reduced :
    PrivateKey.deterministic_k_reduce N = N ∧ N % N = 0 ∧
      PrivateKey.deterministic_k_z_bytes N ≠
        PrivateKey.deterministic_k_z_bytes (N % N) := by
  refine ⟨by decide, by decide, by decide⟩

/-- C10: for every input stream and every value of the testnet argument, a
transaction returned by Tx.parse has its testnet attribute equal to false;
the argument is ignored because the source returns
`cls(version, inputs, outputs, locktime, False)`. -/
theorem tx_parse_testnet_always_false (s : List Nat) (t : Bool) (tx : Tx)
    (rest : List Nat) (h : Tx.parse s t = .ok (tx, rest)) :
    tx.testnet = false := by
  unfold Tx.parse at h
  obtain ⟨⟨ni, s2⟩, -, h⟩ := except_bind_ok _ _ _ h
  obtain ⟨⟨ins, s3⟩, -, h⟩ := except_bind_ok _ _ _ h
  obtain ⟨⟨no, s4⟩, -, h⟩ := except_bind_ok _ _ _ h
  obtain ⟨⟨outs, s5⟩, -, h⟩ := except_bind_ok _ _ _ h
  cases h
  rfl

/-- Witness for C10: a concrete parse of the empty transaction with the
testnet argument true still yields testnet = false. -/
theorem tx_parse_testnet_always_false_witness :
    Tx.parse [1, 0, 0, 0, 0, 0, 0, 0, 0, 0] true =
      .ok (⟨1, [], [], 0, false⟩, []) ∧
      (Tx.mk 1 [] [] 0 false).testnet = false :=
  ⟨by decide,
    tx_parse_testnet_always_false [1, 0, 0, 0, 0, 0, 0, 0, 0, 0] true
      ⟨1, [], [], 0, false⟩ [] (by decide)⟩

end BitcoinImpl
